import Mathlib

/-!
Verification of the screen-sharing relay in `src/app.py`.

The module embeds, as Lean functions, the pieces of `app.py` that the
properties below are about:

* the module-level `connections` dictionary (room id → list of websocket
  connections), modelled as an insertion-ordered association list;
* the registry manipulation performed by `websocket_endpoint`
  (`if room_id not in connections: connections[room_id] = []` followed by
  `connections[room_id].append(websocket)`, the broadcast `for` loop, and
  the `finally: connections[room_id].remove(websocket)` cleanup);
* the room-id generation of `generate_room` (`str(uuid.uuid4())`) and the
  three HTTP GET handlers.

Websocket connection objects are identified by numeric ids; Python's
`connection != websocket` comparison on those objects is identity
inequality, modelled as inequality of the ids.
-/

namespace ShareScreen

/-- A participant channel: one websocket connection object, identified by a
numeric id (Python compares these objects by identity). -/
abbrev Chan := Nat

/-- The module-level `connections` dictionary of `app.py`: a Python dict
from room id to a list of channels, modelled as an insertion-ordered
association list (a fresh key is bound at the end, as in a Python dict). -/
abbrev Registry := List (String × List Chan)

/-- `room_id in connections`: key membership of the dict. -/
def hasRoom : Registry → String → Bool
  | [], _ => false
  | p :: rest, r => if p.1 = r then true else hasRoom rest r

/-- `connections[room_id]` as a read: the list bound to the first entry for
`room_id`, or `[]` when the key is absent (key presence is tracked
separately by `hasRoom`, since Python raises `KeyError` on a missing key). -/
def roomList : Registry → String → List Chan
  | [], _ => []
  | p :: rest, r => if p.1 = r then p.2 else roomList rest r

/-- Rebinding `connections[room_id]` to a new value computed from the old
one (Python mutates the list in place; the model rebinds the key). -/
def updateRoom : Registry → String → (List Chan → List Chan) → Registry
  | [], _, _ => []
  | p :: rest, r, f =>
      if p.1 = r then (p.1, f p.2) :: updateRoom rest r f
      else p :: updateRoom rest r f

/-- Lines 146–148 of `app.py`:
`if room_id not in connections: connections[room_id] = []` then
`connections[room_id].append(websocket)`. -/
def join (reg : Registry) (r : String) (ch : Chan) : Registry :=
  let reg1 := if hasRoom reg r then reg else reg ++ [(r, [])]
  updateRoom reg1 r (fun l => l ++ [ch])

/-- Python's `list.remove(x)`: delete the first occurrence of `x`, or
`none` when `x` is absent (Python raises `ValueError`). -/
def removeFirst : List Chan → Chan → Option (List Chan)
  | [], _ => none
  | x :: xs, ch =>
      if x = ch then some xs
      else
        match removeFirst xs ch with
        | some ys => some (x :: ys)
        | none => none

/-- Line 159 of `app.py`: `connections[room_id].remove(websocket)`.
Raises `KeyError` when the room key is absent and `ValueError` when the
channel is not in the room's list, exactly as the Python expression does. -/
def leave (reg : Registry) (r : String) (ch : Chan) : Except String Registry :=
  if hasRoom reg r then
    match removeFirst (roomList reg r) ch with
    | some l => Except.ok (updateRoom reg r (fun _ => l))
    | none => Except.error "ValueError"
  else
    Except.error "KeyError"

/-- Lines 153–155 of `app.py`, the broadcast of one received payload when no
send raises: `for connection in connections[room_id]: if connection !=
websocket: await connection.send_text(data)`.  Returns the `(target,
payload)` pairs sent, in loop order. -/
def relaySends : List Chan → Chan → String → List (Chan × String)
  | [], _, _ => []
  | c :: rest, sender, d =>
      if c = sender then relaySends rest sender d
      else (c, d) :: relaySends rest sender d

/-- Lines 153–155 of `app.py` when sends can fail: the same `for` loop, with
`failing c = true` meaning `c.send_text` raises.  Returns the sends that
were attempted (in loop order, the failing one last) and whether the loop
was aborted by a raised exception. -/
def sendAttempts : List Chan → Chan → (Chan → Bool) → String → List (Chan × String) × Bool
  | [], _, _, _ => ([], false)
  | c :: rest, sender, failing, d =>
      if c = sender then sendAttempts rest sender failing d
      else if failing c then ([(c, d)], true)
      else
        let res := sendAttempts rest sender failing d
        ((c, d) :: res.1, res.2)

/-- How the blocking `receive_text` call eventually ends the `while True`
loop: a graceful client close (`WebSocketDisconnect`), a transport error
(`ConnectionError`), or any other exception raised during the receive. -/
inductive ExitCause
  | clientClose
  | transportError
  | otherException
deriving DecidableEq

/-- How the relay loop actually exited: which exception ended it.
`recvClose` and `recvError` are caught by the `except` clause and logged;
`recvOther` and `sendFailure` propagate past it; all four reach `finally`. -/
inductive LoopExit
  | recvClose
  | recvError
  | recvOther
  | sendFailure
deriving DecidableEq

/-- The `LoopExit` corresponding to an exception raised by `receive_text`. -/
def exitOfCause : ExitCause → LoopExit
  | ExitCause.clientClose => LoopExit.recvClose
  | ExitCause.transportError => LoopExit.recvError
  | ExitCause.otherException => LoopExit.recvOther

/-- Lines 151–155 of `app.py`: the `while True` receive/broadcast loop of
one session, driven by the finite list of payloads the client delivers
before its receive raises `cause`.  A failing send aborts the loop at that
message (the exception propagates out of the `for` loop). -/
def runLoop (chans : List Chan) (self : Chan) (failing : Chan → Bool) :
    List String → ExitCause → List (Chan × String) × LoopExit
  | [], cause => ([], exitOfCause cause)
  | d :: rest, cause =>
      let att := sendAttempts chans self failing d
      if att.2 then (att.1, LoopExit.sendFailure)
      else
        let res := runLoop chans self failing rest cause
        (att.1 ++ res.1, res.2)

/-- Outcome of one full run of `websocket_endpoint`: the registry after the
`finally` block, the sends attempted by the loop, and how the loop exited. -/
structure SessionResult where
  registry : Registry
  sends : List (Chan × String)
  exit : LoopExit
deriving DecidableEq

/-- Lines 145–159 of `app.py`: one complete websocket session.  `accept`,
join (lines 146–148), the receive/broadcast loop (lines 151–155), and the
`finally` cleanup (line 159).  `Except.ok` means the `finally` block itself
completed (the `exit` field records which exception, if any, ended the loop
and propagates after cleanup); `Except.error` means the cleanup expression
itself raised. -/
def websocket_endpoint (reg : Registry) (room : String) (self : Chan)
    (failing : Chan → Bool) (msgs : List String) (cause : ExitCause) :
    Except String SessionResult :=
  let reg1 := join reg room self
  let lr := runLoop (roomList reg1 room) self failing msgs cause
  match leave reg1 room self with
  | Except.ok reg2 => Except.ok { registry := reg2, sends := lr.1, exit := lr.2 }
  | Except.error e => Except.error e

/-- One lowercase hexadecimal digit, as produced by Python's `'%x'`
formatting: `0`–`9` then `a`–`f`. -/
def toHexDigit (m : Nat) : Char :=
  if m < 10 then Char.ofNat (48 + m) else Char.ofNat (87 + m)

/-- The last `k` lowercase hexadecimal digits of `n`, zero-padded, most
significant first: Python's `'%0*x' % (k, n)` for `n < 16^k`. -/
def toHexChars : Nat → Nat → List Char
  | _, 0 => []
  | n, k + 1 => toHexChars (n / 16) k ++ [toHexDigit (n % 16)]

/-- `toHexChars` packaged as a string. -/
def toHexPad (n k : Nat) : String :=
  String.mk (toHexChars n k)

/-- `str(uuid.uuid4())` applied to the 128-bit integer `n` behind the UUID:
CPython renders `'%032x' % n` and hyphenates it into groups of 8, 4, 4, 4
and 12 digits (slices `[:8]`, `[8:12]`, `[12:16]`, `[16:20]`, `[20:]`). -/
def uuidToString (n : Nat) : String :=
  toHexPad (n / 2 ^ 96) 8 ++ "-" ++ toHexPad (n / 2 ^ 80 % 2 ^ 16) 4 ++ "-" ++
    toHexPad (n / 2 ^ 64 % 2 ^ 16) 4 ++ "-" ++ toHexPad (n / 2 ^ 48 % 2 ^ 16) 4 ++ "-" ++
    toHexPad (n % 2 ^ 48) 12

/-- Lowercase hexadecimal digit test: `'0'`–`'9'` or `'a'`–`'f'`. -/
def isHexDigitChar (c : Char) : Bool :=
  (48 ≤ c.toNat && c.toNat ≤ 57) || (97 ≤ c.toNat && c.toNat ≤ 102)

/-- A rendered template: the template file name passed to
`templates.TemplateResponse` and the string-valued entries of its context
dict (the opaque `request` object is not modelled). -/
structure TemplateResponse where
  template : String
  context : List (String × String)
deriving DecidableEq

/-- Lines 45–71 of `app.py`, the `/` handler.  `rnd` is the 128-bit random
value drawn by `uuid.uuid4()`; `scheme` and `host` come from the request.
The registry is threaded through explicitly to state what the handler does
to it: the handler's body never mentions `connections`. -/
def generate_room (connections : Registry) (scheme host : String) (rnd : Nat) :
    Registry × TemplateResponse :=
  let room_id := uuidToString rnd
  let base_url := scheme ++ "://" ++ host
  let share_link := base_url ++ "/share/" ++ room_id
  let view_link := base_url ++ "/view/" ++ room_id
  (connections,
    { template := "share.html"
      context := [("title", "Screen Sharing Links"), ("share_link", share_link),
        ("view_link", view_link)] })

/-- Lines 75–99 of `app.py`, the `/share/\x7broom_id\x7d` handler. -/
def share_screen (connections : Registry) (room_id : String) :
    Registry × TemplateResponse :=
  (connections,
    { template := "base.html"
      context := [("title", "Sharing Room " ++ room_id),
        ("content", "<p>Sharing screen for room <strong>" ++ room_id ++
          "</strong>.</p><p>Screen sharing functionality coming soon.</p>")] })

/-- Lines 103–127 of `app.py`, the `/view/\x7broom_id\x7d` handler. -/
def view_screen (connections : Registry) (room_id : String) :
    Registry × TemplateResponse :=
  (connections,
    { template := "base.html"
      context := [("title", "Viewing Room " ++ room_id),
        ("content", "<p>Viewing screen for room <strong>" ++ room_id ++
          "</strong>.</p><p>Screen viewing functionality coming soon.</p>")] })

/-- The registry invariant of the spec: every room's collection is
duplicate-free, and a channel sits in at most one room's collection. -/
def RegistryInv (reg : Registry) : Prop :=
  (∀ r, (roomList reg r).Nodup) ∧
    ∀ ch r1 r2, ch ∈ roomList reg r1 → ch ∈ roomList reg r2 → r1 = r2

/-- One registry transition under the call discipline of the sessions in
`app.py`: a `join` uses a channel that is in no collection (each session
joins exactly once with its own fresh connection object), and a `leave` is
one that succeeds (a session removes the channel it itself registered). -/
inductive Step : Registry → Registry → Prop
  | join (reg : Registry) (r : String) (ch : Chan)
      (hfresh : ∀ p ∈ reg, ch ∉ p.2) : Step reg (join reg r ch)
  | leave (reg reg2 : Registry) (r : String) (ch : Chan)
      (h : leave reg r ch = Except.ok reg2) : Step reg reg2

/-- Registry states reachable from the initial `connections = \x7b\x7d` by
disciplined joins and leaves. -/
inductive Reachable : Registry → Prop
  | init : Reachable []
  | step {reg reg2 : Registry} : Reachable reg → Step reg reg2 → Reachable reg2

/-- The registry after P1, P2, P3 (channels 1, 2, 3) join room `"abc"` in
that order: the concrete scenario of the spec. -/
def regP123 : Registry :=
  join (join (join [] "abc" 1) "abc" 2) "abc" 3

theorem roomList_eq_nil_of_not_hasRoom {reg : Registry} {r : String}
    (h : hasRoom reg r = false) : roomList reg r = [] := by
  induction reg with
  | nil => rfl
  | cons p rest ih =>
      by_cases hp : p.1 = r
      · simp [hasRoom, hp] at h
      · simp [hasRoom, hp] at h
        simp [roomList, hp, ih h]

theorem hasRoom_of_mem_roomList {reg : Registry} {r : String} {ch : Chan}
    (h : ch ∈ roomList reg r) : hasRoom reg r = true := by
  by_cases hr : hasRoom reg r
  · exact hr
  · rw [roomList_eq_nil_of_not_hasRoom (Bool.of_not_eq_true hr)] at h
    exact absurd h (List.not_mem_nil ch)

theorem mem_roomList_exists {reg : Registry} {r : String} {ch : Chan}
    (h : ch ∈ roomList reg r) : ∃ p ∈ reg, p.1 = r ∧ ch ∈ p.2 := by
  induction reg with
  | nil => exact absurd h (List.not_mem_nil ch)
  | cons p rest ih =>
      by_cases hp : p.1 = r
      · simp [roomList, hp] at h
        exact ⟨p, List.mem_cons_self p rest, hp, h⟩
      · simp [roomList, hp] at h
        obtain ⟨q, hq, hq1, hq2⟩ := ih h
        exact ⟨q, List.mem_cons_of_mem p hq, hq1, hq2⟩

theorem hasRoom_updateRoom (reg : Registry) (r r0 : String) (f : List Chan → List Chan) :
    hasRoom (updateRoom reg r f) r0 = hasRoom reg r0 := by
  induction reg with
  | nil => rfl
  | cons p rest ih =>
      simp only [updateRoom]
      by_cases hp : p.1 = r
      · rw [if_pos hp]
        simp only [hasRoom]
        rw [ih]
      · rw [if_neg hp]
        simp only [hasRoom]
        rw [ih]

theorem roomList_updateRoom_self {reg : Registry} {r : String} (f : List Chan → List Chan)
    (h : hasRoom reg r = true) : roomList (updateRoom reg r f) r = f (roomList reg r) := by
  induction reg with
  | nil => simp [hasRoom] at h
  | cons p rest ih =>
      by_cases hp : p.1 = r
      · simp [updateRoom, roomList, hp]
      · simp [hasRoom, hp] at h
        simp [updateRoom, roomList, hp, ih h]

theorem roomList_updateRoom_ne {reg : Registry} {r r0 : String} (f : List Chan → List Chan)
    (h : r0 ≠ r) : roomList (updateRoom reg r f) r0 = roomList reg r0 := by
  induction reg with
  | nil => rfl
  | cons p rest ih =>
      simp only [updateRoom]
      by_cases hp : p.1 = r
      · have hp0 : ¬ p.1 = r0 := by rw [hp]; exact fun hc => h hc.symm
        rw [if_pos hp]
        simp only [roomList]
        rw [if_neg hp0, if_neg hp0, ih]
      · rw [if_neg hp]
        simp only [roomList]
        rw [ih]

theorem updateRoom_of_not_hasRoom {reg : Registry} {r : String} (f : List Chan → List Chan)
    (h : hasRoom reg r = false) : updateRoom reg r f = reg := by
  induction reg with
  | nil => rfl
  | cons p rest ih =>
      by_cases hp : p.1 = r
      · simp [hasRoom, hp] at h
      · simp [hasRoom, hp] at h
        simp [updateRoom, hp, ih h]

theorem hasRoom_append_self (reg : Registry) (r : String) (l : List Chan) :
    hasRoom (reg ++ [(r, l)]) r = true := by
  induction reg with
  | nil => simp [hasRoom]
  | cons p rest ih =>
      by_cases hp : p.1 = r <;> simp [hasRoom, hp, ih]

theorem hasRoom_append_ne {reg : Registry} {r r0 : String} (l : List Chan)
    (h : r0 ≠ r) : hasRoom (reg ++ [(r, l)]) r0 = hasRoom reg r0 := by
  induction reg with
  | nil =>
      have hr : ¬ r = r0 := fun hc => h hc.symm
      simp only [List.nil_append, hasRoom]
      rw [if_neg hr]
  | cons p rest ih =>
      simp only [List.cons_append, hasRoom, List.append_eq]
      rw [ih]

theorem roomList_append_self {reg : Registry} {r : String} (l : List Chan)
    (h : hasRoom reg r = false) : roomList (reg ++ [(r, l)]) r = l := by
  induction reg with
  | nil => simp [roomList]
  | cons p rest ih =>
      by_cases hp : p.1 = r
      · simp [hasRoom, hp] at h
      · simp [hasRoom, hp] at h
        simp [roomList, hp, ih h]

theorem roomList_append_ne {reg : Registry} {r r0 : String} (l : List Chan)
    (h : r0 ≠ r) : roomList (reg ++ [(r, l)]) r0 = roomList reg r0 := by
  induction reg with
  | nil =>
      have hr : ¬ r = r0 := fun hc => h hc.symm
      simp only [List.nil_append, roomList]
      rw [if_neg hr]
  | cons p rest ih =>
      simp only [List.cons_append, roomList, List.append_eq]
      rw [ih]

theorem roomList_join_self (reg : Registry) (r : String) (ch : Chan) :
    roomList (join reg r ch) r = roomList reg r ++ [ch] := by
  unfold join
  by_cases h : hasRoom reg r
  · simp [h, roomList_updateRoom_self _ h]
  · have h' : hasRoom reg r = false := Bool.of_not_eq_true h
    have h1 : hasRoom (reg ++ [(r, [])]) r = true := hasRoom_append_self reg r []
    simp [h', roomList_updateRoom_self _ h1, roomList_append_self [] h',
      roomList_eq_nil_of_not_hasRoom h']

theorem roomList_join_ne {reg : Registry} {r r0 : String} (ch : Chan)
    (h : r0 ≠ r) : roomList (join reg r ch) r0 = roomList reg r0 := by
  unfold join
  by_cases hr : hasRoom reg r
  · simp [hr, roomList_updateRoom_ne _ h]
  · have h' : hasRoom reg r = false := Bool.of_not_eq_true hr
    simp [h', roomList_updateRoom_ne _ h, roomList_append_ne [] h]

theorem hasRoom_join_self (reg : Registry) (r : String) (ch : Chan) :
    hasRoom (join reg r ch) r = true := by
  unfold join
  by_cases h : hasRoom reg r
  · simp [h, hasRoom_updateRoom]
  · have h' : hasRoom reg r = false := Bool.of_not_eq_true h
    simp [h', hasRoom_updateRoom, hasRoom_append_self]

theorem hasRoom_join_mono {reg : Registry} {r0 : String} (r : String) (ch : Chan)
    (h : hasRoom reg r0 = true) : hasRoom (join reg r ch) r0 = true := by
  by_cases h0 : r0 = r
  · rw [h0]; exact hasRoom_join_self reg r ch
  · unfold join
    by_cases hr : hasRoom reg r
    · simp [hr, hasRoom_updateRoom, h]
    · have h' : hasRoom reg r = false := Bool.of_not_eq_true hr
      simp [h', hasRoom_updateRoom, hasRoom_append_ne [] h0, h]

theorem removeFirst_eq_none_iff (l : List Chan) (ch : Chan) :
    removeFirst l ch = none ↔ ch ∉ l := by
  induction l with
  | nil => simp [removeFirst]
  | cons x xs ih =>
      by_cases hx : x = ch
      · subst hx
        simp [removeFirst]
      · simp only [removeFirst, if_neg hx]
        cases hrf : removeFirst xs ch with
        | some ys =>
            have hmem : ch ∈ xs := by
              by_contra hn
              exact absurd (ih.mpr hn) (by simp [hrf])
            constructor
            · intro hc; simp at hc
            · intro hc; exact absurd (List.mem_cons_of_mem x hmem) hc
        | none =>
            have hxs : ch ∉ xs := ih.mp hrf
            constructor
            · intro _ hc
              rcases List.mem_cons.mp hc with h | h
              · exact hx h.symm
              · exact hxs h
            · intro _; rfl

theorem removeFirst_some_of_mem {l : List Chan} {ch : Chan} (h : ch ∈ l) :
    ∃ l2, removeFirst l ch = some l2 := by
  cases hrf : removeFirst l ch with
  | some l2 => exact ⟨l2, rfl⟩
  | none => exact absurd h ((removeFirst_eq_none_iff l ch).mp hrf)

theorem removeFirst_sublist {l l2 : List Chan} {ch : Chan}
    (h : removeFirst l ch = some l2) : l2.Sublist l := by
  induction l generalizing l2 with
  | nil => simp [removeFirst] at h
  | cons x xs ih =>
      by_cases hx : x = ch
      · simp only [removeFirst, if_pos hx] at h
        cases h
        exact List.sublist_cons_self x xs
      · simp only [removeFirst, if_neg hx] at h
        cases hrf : removeFirst xs ch with
        | some ys =>
            rw [hrf] at h
            cases h
            exact List.Sublist.cons₂ x (ih hrf)
        | none => rw [hrf] at h; cases h

theorem removeFirst_count_self {l l2 : List Chan} {ch : Chan}
    (h : removeFirst l ch = some l2) : l2.count ch + 1 = l.count ch := by
  induction l generalizing l2 with
  | nil => simp [removeFirst] at h
  | cons x xs ih =>
      by_cases hx : x = ch
      · simp only [removeFirst, if_pos hx] at h
        cases h
        simp [List.count_cons, hx]
      · simp only [removeFirst, if_neg hx] at h
        cases hrf : removeFirst xs ch with
        | some ys =>
            rw [hrf] at h
            cases h
            have hne : ¬ (x == ch) = true := by simp [hx]
            simp [List.count_cons, hne, ih hrf]
        | none => rw [hrf] at h; cases h

theorem removeFirst_count_ne {l l2 : List Chan} {ch c : Chan}
    (h : removeFirst l ch = some l2) (hne : c ≠ ch) : l2.count c = l.count c := by
  induction l generalizing l2 with
  | nil => simp [removeFirst] at h
  | cons x xs ih =>
      by_cases hx : x = ch
      · simp only [removeFirst, if_pos hx] at h
        cases h
        have : ¬ (x == c) = true := by
          simp only [beq_iff_eq]
          exact fun hc => hne (hc.symm.trans hx)
        simp [List.count_cons, this]
      · simp only [removeFirst, if_neg hx] at h
        cases hrf : removeFirst xs ch with
        | some ys =>
            rw [hrf] at h
            cases h
            simp [List.count_cons, ih hrf]
        | none => rw [hrf] at h; cases h

theorem leave_error_of_not_hasRoom {reg : Registry} {r : String} (ch : Chan)
    (h : hasRoom reg r = false) : leave reg r ch = Except.error "KeyError" := by
  simp [leave, h]

theorem leave_error_of_not_mem {reg : Registry} {r : String} {ch : Chan}
    (hr : hasRoom reg r = true) (h : ch ∉ roomList reg r) :
    leave reg r ch = Except.error "ValueError" := by
  have hrf : removeFirst (roomList reg r) ch = none := (removeFirst_eq_none_iff _ _).mpr h
  simp [leave, hr, hrf]

theorem leave_ok_of_mem {reg : Registry} {r : String} {ch : Chan}
    (h : ch ∈ roomList reg r) :
    ∃ reg2 l2, removeFirst (roomList reg r) ch = some l2 ∧
      leave reg r ch = Except.ok reg2 ∧ roomList reg2 r = l2 ∧
      (∀ r0, r0 ≠ r → roomList reg2 r0 = roomList reg r0) ∧
      ∀ r0, hasRoom reg2 r0 = hasRoom reg r0 := by
  have hr : hasRoom reg r = true := hasRoom_of_mem_roomList h
  obtain ⟨l2, hrf⟩ := removeFirst_some_of_mem h
  refine ⟨updateRoom reg r (fun _ => l2), l2, hrf, ?_, ?_, ?_, ?_⟩
  · simp [leave, hr, hrf]
  · exact roomList_updateRoom_self _ hr
  · exact fun r0 h0 => roomList_updateRoom_ne _ h0
  · exact fun r0 => hasRoom_updateRoom reg r r0 _

theorem relaySends_sender_not_mem (l : List Chan) (sender : Chan) (d d0 : String) :
    (sender, d0) ∉ relaySends l sender d := by
  induction l with
  | nil => simp [relaySends]
  | cons c rest ih =>
      by_cases hc : c = sender
      · simpa [relaySends, hc] using ih
      · simp only [relaySends, if_neg hc, List.mem_cons]
        rintro (hp | hp)
        · exact hc (congrArg Prod.fst hp).symm
        · exact ih hp

theorem mem_relaySends {l : List Chan} {sender c : Chan} {d d0 : String}
    (h : (c, d0) ∈ relaySends l sender d) : d0 = d ∧ c ∈ l ∧ c ≠ sender := by
  induction l with
  | nil => simp [relaySends] at h
  | cons x rest ih =>
      by_cases hx : x = sender
      · simp only [relaySends, if_pos hx] at h
        obtain ⟨h1, h2, h3⟩ := ih h
        exact ⟨h1, List.mem_cons_of_mem x h2, h3⟩
      · simp only [relaySends, if_neg hx, List.mem_cons] at h
        rcases h with hp | hp
        · cases hp
          exact ⟨rfl, List.mem_cons_self c rest, hx⟩
        · obtain ⟨h1, h2, h3⟩ := ih hp
          exact ⟨h1, List.mem_cons_of_mem x h2, h3⟩

theorem relaySends_count {l : List Chan} {sender c : Chan} (d : String)
    (hne : c ≠ sender) : (relaySends l sender d).count (c, d) = l.count c := by
  induction l with
  | nil => simp [relaySends]
  | cons x rest ih =>
      by_cases hx : x = sender
      · simp [relaySends, hx, List.count_cons, hne, ih]
      · by_cases hxc : x = c
        · subst hxc
          simp [relaySends, if_neg hx, List.count_cons, ih]
        · have h1 : ¬ ((x, d) == (c, d)) = true := by
            simp only [beq_iff_eq, Prod.mk.injEq]
            exact fun hc => hxc hc.1
          have h2 : ¬ (x == c) = true := by simp [hxc]
          simp [relaySends, if_neg hx, List.count_cons, h1, h2, ih]

theorem mem_roomList_join_self (reg : Registry) (room : String) (self : Chan) :
    self ∈ roomList (join reg room self) room := by
  rw [roomList_join_self]
  exact List.mem_append_right _ (List.mem_singleton.mpr rfl)

theorem websocket_endpoint_ok (reg : Registry) (room : String) (self : Chan)
    (failing : Chan → Bool) (msgs : List String) (cause : ExitCause) :
    ∃ res, websocket_endpoint reg room self failing msgs cause = Except.ok res ∧
      (roomList res.registry room).count self = (roomList reg room).count self ∧
      (∀ c, c ≠ self → (roomList res.registry room).count c = (roomList reg room).count c) ∧
      (∀ r0, r0 ≠ room → roomList res.registry r0 = roomList reg r0) ∧
      ∀ r0, hasRoom reg r0 = true → hasRoom res.registry r0 = true := by
  have hmem : self ∈ roomList (join reg room self) room :=
    mem_roomList_join_self reg room self
  obtain ⟨reg2, l2, hrf, hleave, hr2, hother, hhas⟩ := leave_ok_of_mem hmem
  refine ⟨⟨reg2, (runLoop (roomList (join reg room self) room) self failing msgs cause).1,
      (runLoop (roomList (join reg room self) room) self failing msgs cause).2⟩, ?_, ?_, ?_, ?_, ?_⟩
  · simp only [websocket_endpoint]
    rw [hleave]
  · have h1 : l2.count self + 1 = (roomList (join reg room self) room).count self :=
      removeFirst_count_self hrf
    rw [roomList_join_self] at h1
    simp only [List.count_append] at h1
    have h2 : ([self] : List Chan).count self = 1 := by simp
    rw [h2] at h1
    simpa [hr2] using Nat.add_right_cancel h1
  · intro c hc
    have h1 : l2.count c = (roomList (join reg room self) room).count c :=
      removeFirst_count_ne hrf hc
    rw [roomList_join_self] at h1
    simp only [List.count_append] at h1
    have h2 : ([self] : List Chan).count c = 0 := by
      simp [List.count_singleton]
      intro hcc
      exact absurd hcc.symm hc
    rw [h2] at h1
    simpa [hr2] using h1
  · intro r0 h0
    rw [hother r0 h0, roomList_join_ne _ h0]
  · intro r0 h0
    rw [hhas r0]
    exact hasRoom_join_mono room self h0

theorem leave_ok_elim {reg reg2 : Registry} {r : String} {ch : Chan}
    (h : leave reg r ch = Except.ok reg2) :
    ∃ l2, hasRoom reg r = true ∧ removeFirst (roomList reg r) ch = some l2 ∧
      reg2 = updateRoom reg r (fun _ => l2) := by
  by_cases hr : hasRoom reg r
  · simp only [leave, if_pos hr] at h
    cases hrf : removeFirst (roomList reg r) ch with
    | some l2 =>
        rw [hrf] at h
        simp only [Except.ok.injEq] at h
        exact ⟨l2, hr, rfl, h.symm⟩
    | none =>
        rw [hrf] at h
        cases h
  · simp only [leave, if_neg hr] at h
    cases h

theorem toHexChars_length (n k : Nat) : (toHexChars n k).length = k := by
  induction k generalizing n with
  | zero => rfl
  | succ k ih => simp [toHexChars, ih]

theorem toHexPad_length (n k : Nat) : (toHexPad n k).length = k :=
  toHexChars_length n k

theorem toHexDigit_isHex {m : Nat} (h : m < 16) : isHexDigitChar (toHexDigit m) = true := by
  interval_cases m <;> decide

theorem toHexChars_isHex (n k : Nat) : ∀ c ∈ toHexChars n k, isHexDigitChar c = true := by
  induction k generalizing n with
  | zero => intro c hc; simp [toHexChars] at hc
  | succ k ih =>
      intro c hc
      simp only [toHexChars] at hc
      rcases List.mem_append.mp hc with hm | hm
      · exact ih (n / 16) c hm
      · rw [List.mem_singleton] at hm
        subst hm
        exact toHexDigit_isHex (Nat.mod_lt n (by decide))

/-- C1: for every room and every text payload received from a connected
participant, the broadcast loop (lines 153–155 of `app.py`) sends the
payload, unmodified, exactly once to every channel of the room's collection
other than the sender's own channel, and never to the sender. -/
theorem relay_broadcast_exactly_once (reg : Registry) (room : String)
    (sender : Chan) (d : String) (hnd : (roomList reg room).Nodup) :
    (∀ c, c ∈ roomList reg room → c ≠ sender →
        (relaySends (roomList reg room) sender d).count (c, d) = 1) ∧
    (∀ d0, (sender, d0) ∉ relaySends (roomList reg room) sender d) ∧
    ∀ c d0, (c, d0) ∈ relaySends (roomList reg room) sender d →
      d0 = d ∧ c ∈ roomList reg room ∧ c ≠ sender := by
  refine ⟨?_, ?_, ?_⟩
  · intro c hc hcs
    rw [relaySends_count d hcs]
    exact List.count_eq_one_of_mem hnd hc
  · intro d0
    exact relaySends_sender_not_mem _ _ _ _
  · intro c d0 hc
    exact mem_relaySends hc

/-- C1 witness: the spec scenario — P1, P2, P3 (channels 1, 2, 3) joined to
room `"abc"` in that order; P2 sends `"hello"`; P1 and P3 each receive it
exactly once and P2 receives nothing. -/
theorem relay_broadcast_exactly_once_witness :
    (roomList regP123 "abc").Nodup ∧
    (relaySends (roomList regP123 "abc") 2 "hello").count (1, "hello") = 1 ∧
    (relaySends (roomList regP123 "abc") 2 "hello").count (3, "hello") = 1 ∧
    (2, "hello") ∉ relaySends (roomList regP123 "abc") 2 "hello" :=
  ⟨by decide,
   (relay_broadcast_exactly_once regP123 "abc" 2 "hello" (by decide)).1 1 (by decide) (by decide),
   (relay_broadcast_exactly_once regP123 "abc" 2 "hello" (by decide)).1 3 (by decide) (by decide),
   (relay_broadcast_exactly_once regP123 "abc" 2 "hello" (by decide)).2.1 "hello"⟩

/-- C2: on every exit path of the relay loop — graceful close, transport
error, any other receive exception, or an exception during a send — the
`finally` cleanup of `websocket_endpoint` runs, succeeds, and removes the
session's channel from its room's collection before the session ends. -/
theorem cleanup_always_removes (reg : Registry) (room : String) (self : Chan)
    (failing : Chan → Bool) (msgs : List String) (cause : ExitCause)
    (h : self ∉ roomList reg room) :
    ∃ res, websocket_endpoint reg room self failing msgs cause = Except.ok res ∧
      self ∉ roomList res.registry room := by
  obtain ⟨res, hok, hcount, -, -, -⟩ := websocket_endpoint_ok reg room self failing msgs cause
  refine ⟨res, hok, ?_⟩
  rw [← List.count_eq_zero, hcount]
  exact List.count_eq_zero.mpr h

/-- C2 witness: a fresh channel 7 joins the unseen room `"abc"`, relays one
message, and the client closes; the cleanup completes and channel 7 is no
longer in the room's collection. -/
theorem cleanup_always_removes_witness :
    (7 : Chan) ∉ roomList [] "abc" ∧
    ∃ res, websocket_endpoint [] "abc" 7 (fun _ => false) ["hi"] ExitCause.clientClose =
        Except.ok res ∧ (7 : Chan) ∉ roomList res.registry "abc" :=
  ⟨by decide,
   cleanup_always_removes [] "abc" 7 (fun _ => false) ["hi"] ExitCause.clientClose (by decide)⟩

/-- C3 counterexample: cleanup's `connections[room_id].remove(websocket)` is
not a no-op on absent state — with the room absent from the registry it
raises `KeyError`, and with the channel absent from the room's collection it
raises `ValueError`, instead of completing without error. -/
theorem leave_absent_raises_counterexample :
    leave [] "x" 0 = Except.error "KeyError" ∧
    leave (join [] "x" 1) "x" 0 = Except.error "ValueError" :=
  ⟨rfl, rfl⟩

/-- C3 amended: the leave operation performed at session cleanup raises
`KeyError` when the room identifier is absent from the registry and
`ValueError` when the channel is absent from the room's collection; it
completes (removing the channel) exactly when the channel is present. -/
theorem leave_absent_error_spec (reg : Registry) (r : String) (ch : Chan) :
    (hasRoom reg r = false → leave reg r ch = Except.error "KeyError") ∧
    (hasRoom reg r = true → ch ∉ roomList reg r →
        leave reg r ch = Except.error "ValueError") ∧
    (ch ∈ roomList reg r → ∃ reg2, leave reg r ch = Except.ok reg2) := by
  refine ⟨fun h => leave_error_of_not_hasRoom ch h,
    fun h1 h2 => leave_error_of_not_mem h1 h2, fun h => ?_⟩
  obtain ⟨reg2, l2, -, hok, -, -, -⟩ := leave_ok_of_mem h
  exact ⟨reg2, hok⟩

/-- C3 witness: the amended behaviour at concrete states — an empty registry
gives `KeyError`; room `"x"` holding only channel 1 gives `ValueError` for
channel 0 and success for channel 1. -/
theorem leave_absent_error_spec_witness :
    leave [] "x" 0 = Except.error "KeyError" ∧
    leave (join [] "x" 1) "x" 0 = Except.error "ValueError" ∧
    ∃ reg2, leave (join [] "x" 1) "x" 1 = Except.ok reg2 :=
  ⟨(leave_absent_error_spec [] "x" 0).1 rfl,
   (leave_absent_error_spec (join [] "x" 1) "x" 0).2.1 rfl (by decide),
   (leave_absent_error_spec (join [] "x" 1) "x" 1).2.2 (by decide)⟩

/-- C5: joining binds an unseen room identifier to an empty collection
first and then appends the channel; every join appends the channel to the
room's collection and leaves every other room's collection unchanged. -/
theorem join_creates_and_appends (reg : Registry) (r : String) (ch : Chan) :
    (hasRoom reg r = false → hasRoom (join reg r ch) r = true ∧
        roomList (join reg r ch) r = [] ++ [ch]) ∧
    roomList (join reg r ch) r = roomList reg r ++ [ch] ∧
    ∀ r0, r0 ≠ r → roomList (join reg r ch) r0 = roomList reg r0 := by
  refine ⟨fun h => ⟨hasRoom_join_self reg r ch, ?_⟩, roomList_join_self reg r ch,
    fun r0 h0 => roomList_join_ne ch h0⟩
  rw [roomList_join_self, roomList_eq_nil_of_not_hasRoom h]

/-- C5 witness: channel 1 joins the unseen room `"abc"` of an empty
registry; the room is created with the empty collection, channel 1 is
appended, and an unrelated room is untouched. -/
theorem join_creates_and_appends_witness :
    hasRoom ([] : Registry) "abc" = false ∧
    hasRoom (join [] "abc" 1) "abc" = true ∧
    roomList (join [] "abc" 1) "abc" = [] ++ [1] ∧
    roomList (join [] "abc" 1) "other" = roomList [] "other" :=
  ⟨rfl, ((join_creates_and_appends [] "abc" 1).1 rfl).1,
   ((join_creates_and_appends [] "abc" 1).1 rfl).2,
   (join_creates_and_appends [] "abc" 1).2.2 "other" (by decide)⟩

/-- C8: a broadcast in room `r2` never reaches a channel that is only in a
different room `r1`: every delivery target of the broadcast loop is drawn
from `r2`'s own collection. -/
theorem no_cross_room_delivery (reg : Registry) (r1 r2 : String)
    (sender c : Chan) (d : String) (hne : r1 ≠ r2)
    (h1 : c ∈ roomList reg r1) (h2 : c ∉ roomList reg r2) :
    (∀ d0, (c, d0) ∉ relaySends (roomList reg r2) sender d) ∧
    ∀ c0 d0, (c0, d0) ∈ relaySends (roomList reg r2) sender d → c0 ∈ roomList reg r2 := by
  constructor
  · intro d0 hc
    exact h2 (mem_relaySends hc).2.1
  · intro c0 d0 hc
    exact (mem_relaySends hc).2.1

/-- C8 witness: channel 1 is only in room `"r1"`; a broadcast of `"msg"` by
channel 2 in room `"r2"` never targets channel 1. -/
theorem no_cross_room_delivery_witness :
    (1 : Chan) ∈ roomList (join (join [] "r1" 1) "r2" 2) "r1" ∧
    (1 : Chan) ∉ roomList (join (join [] "r1" 1) "r2" 2) "r2" ∧
    ∀ d0, (1, d0) ∉ relaySends (roomList (join (join [] "r1" 1) "r2" 2) "r2") 2 "msg" :=
  ⟨by decide, by decide,
   (no_cross_room_delivery (join (join [] "r1" 1) "r2" 2) "r1" "r2" 2 1 "msg"
      (by decide) (by decide) (by decide)).1⟩

/-- C10: the three HTTP GET handlers — `/` (`generate_room`),
`/share/...` (`share_screen`) and `/view/...` (`view_screen`) — neither
read nor modify the `connections` registry: the registry after each
request equals the registry before it. -/
theorem get_handlers_preserve_registry (reg : Registry)
    (scheme host room_id : String) (rnd : Nat) :
    (generate_room reg scheme host rnd).1 = reg ∧
    (share_screen reg room_id).1 = reg ∧
    (view_screen reg room_id).1 = reg :=
  ⟨rfl, rfl, rfl⟩

theorem sendAttempts_split (pre post : List Chan) (sender fp : Chan)
    (failing : Chan → Bool) (d : String)
    (hpre : ∀ c ∈ pre, c ≠ sender → failing c = false)
    (hf1 : fp ≠ sender) (hf2 : failing fp = true) :
    sendAttempts (pre ++ fp :: post) sender failing d =
      (relaySends pre sender d ++ [(fp, d)], true) := by
  induction pre with
  | nil =>
      simp only [List.nil_append, sendAttempts, relaySends]
      rw [if_neg hf1, if_pos hf2]
  | cons x xs ih =>
      have hrec := ih (fun c hc => hpre c (List.mem_cons_of_mem x hc))
      by_cases hxs : x = sender
      · simp only [List.cons_append, sendAttempts, relaySends, if_pos hxs]
        exact hrec
      · have hfx : failing x = false := hpre x (List.mem_cons_self x xs) hxs
        simp only [List.cons_append, sendAttempts, relaySends, if_neg hxs, hfx,
          if_neg Bool.false_ne_true, List.append_eq]
        rw [hrec]

/-- C4 counterexample: in room collection `[1, 2, 3]` with sender 1, a
failing send to channel 2 aborts the broadcast — delivery is never
attempted to the remaining non-sender peer 3 — and terminates the sender's
receive loop, so a second pending message is never relayed. -/
theorem send_failure_not_localized_counterexample :
    sendAttempts [1, 2, 3] 1 (fun c => c == 2) "hello" = ([(2, "hello")], true) ∧
    (3, "hello") ∉ (sendAttempts [1, 2, 3] 1 (fun c => c == 2) "hello").1 ∧
    runLoop [1, 2, 3] 1 (fun c => c == 2) ["hello", "again"] ExitCause.clientClose =
      ([(2, "hello")], LoopExit.sendFailure) :=
  ⟨by decide, by decide, by decide⟩

/-- C4 amended: a send failure during a broadcast is not localized to the
failing peer — the exception aborts the `for` loop, so the payload reaches
exactly the non-sender peers preceding the failing peer (the failing send
being the last one attempted), the receive loop terminates with that
exception, and the `finally` cleanup still completes. -/
theorem send_failure_aborts_broadcast (pre post : List Chan) (sender fp : Chan)
    (failing : Chan → Bool) (d : String) (msgs : List String) (cause : ExitCause)
    (reg : Registry) (room : String)
    (hpre : ∀ c ∈ pre, c ≠ sender → failing c = false)
    (hf1 : fp ≠ sender) (hf2 : failing fp = true) :
    sendAttempts (pre ++ fp :: post) sender failing d =
      (relaySends pre sender d ++ [(fp, d)], true) ∧
    runLoop (pre ++ fp :: post) sender failing (d :: msgs) cause =
      (relaySends pre sender d ++ [(fp, d)], LoopExit.sendFailure) ∧
    ∃ res, websocket_endpoint reg room sender failing (d :: msgs) cause = Except.ok res := by
  have key := sendAttempts_split pre post sender fp failing d hpre hf1 hf2
  refine ⟨key, ?_, ?_⟩
  · simp [runLoop, key]
  · obtain ⟨res, hok, -, -, -, -⟩ :=
      websocket_endpoint_ok reg room sender failing (d :: msgs) cause
    exact ⟨res, hok⟩

/-- C4 witness: the amended behaviour at a concrete input — collection
`[5, 2, 3]`, sender 1, channel 2 failing: the payload reaches peer 5, the
failing send to 2 is the last attempt, the loop exits with the send
failure, and the session's cleanup still succeeds. -/
theorem send_failure_aborts_broadcast_witness :
    sendAttempts ([5] ++ 2 :: [3]) 1 (fun c => c == 2) "hello" =
      (relaySends [5] 1 "hello" ++ [(2, "hello")], true) ∧
    runLoop ([5] ++ 2 :: [3]) 1 (fun c => c == 2) ["hello"] ExitCause.clientClose =
      (relaySends [5] 1 "hello" ++ [(2, "hello")], LoopExit.sendFailure) ∧
    ∃ res, websocket_endpoint [] "abc" 1 (fun c => c == 2) ["hello"]
        ExitCause.clientClose = Except.ok res :=
  send_failure_aborts_broadcast [5] [3] 1 2 (fun c => c == 2) "hello" [] ExitCause.clientClose
    [] "abc" (by decide) (by decide) (by decide)

/-- C7: a room identifier, once a key of the registry, is never removed by
a join or a successful leave; after the last participant of a room leaves,
the key is still present and bound to the empty collection (the broadcast
loop never touches the registry at all, as `relaySends` returns only the
sends). -/
theorem room_keys_persist (reg : Registry) (r r0 : String) (ch : Chan) :
    (hasRoom reg r0 = true → hasRoom (join reg r ch) r0 = true) ∧
    (∀ reg2, leave reg r ch = Except.ok reg2 → hasRoom reg r0 = true →
        hasRoom reg2 r0 = true) ∧
    ∀ reg2, leave reg r ch = Except.ok reg2 → roomList reg r = [ch] →
      hasRoom reg2 r = true ∧ roomList reg2 r = [] := by
  refine ⟨hasRoom_join_mono r ch, ?_, ?_⟩
  · intro reg2 hok h0
    obtain ⟨l2, hr, hrf, hup⟩ := leave_ok_elim hok
    rw [hup, hasRoom_updateRoom]
    exact h0
  · intro reg2 hok hone
    obtain ⟨l2, hr, hrf, hup⟩ := leave_ok_elim hok
    rw [hone] at hrf
    have hl2 : l2 = [] := by
      have hstep : removeFirst [ch] ch = some [] := by simp [removeFirst]
      rw [hstep] at hrf
      injection hrf with h2
      exact h2.symm
    subst hl2
    subst hup
    exact ⟨by rw [hasRoom_updateRoom]; exact hr, roomList_updateRoom_self _ hr⟩

/-- C7 witness: channel 5 joins the unseen room `"x"` and then leaves; the
key `"x"` is still present, bound to the empty collection. -/
theorem room_keys_persist_witness :
    leave (join [] "x" 5) "x" 5 = Except.ok [("x", [])] ∧
    roomList (join [] "x" 5) "x" = [5] ∧
    hasRoom ([("x", [])] : Registry) "x" = true ∧
    roomList ([("x", [])] : Registry) "x" = [] :=
  ⟨rfl, rfl,
   ((room_keys_persist (join [] "x" 5) "x" "x" 5).2.2 [("x", [])] rfl rfl).1,
   ((room_keys_persist (join [] "x" 5) "x" "x" 5).2.2 [("x", [])] rfl rfl).2⟩

/-- C9: every room identifier produced by the `/` endpoint is the canonical
hyphenated rendering of the 128-bit random value behind `uuid.uuid4()`:
36 characters, five hyphen-separated groups of lowercase hexadecimal digits
of lengths 8, 4, 4, 4 and 12 — and the share and view links embed exactly
that identifier. -/
theorem room_id_canonical_format (reg : Registry) (scheme host : String)
    (n : Nat) (h : n < 2 ^ 128) :
    (uuidToString n).length = 36 ∧
    (∃ g1 g2 g3 g4 g5 : String,
        uuidToString n = g1 ++ "-" ++ g2 ++ "-" ++ g3 ++ "-" ++ g4 ++ "-" ++ g5 ∧
        g1.length = 8 ∧ g2.length = 4 ∧ g3.length = 4 ∧ g4.length = 4 ∧
        g5.length = 12 ∧
        ∀ c, (c ∈ g1.data ∨ c ∈ g2.data ∨ c ∈ g3.data ∨ c ∈ g4.data ∨ c ∈ g5.data) →
          isHexDigitChar c = true) ∧
    (generate_room reg scheme host n).2.context =
      [("title", "Screen Sharing Links"),
        ("share_link", scheme ++ "://" ++ host ++ "/share/" ++ uuidToString n),
        ("view_link", scheme ++ "://" ++ host ++ "/view/" ++ uuidToString n)] := by
  refine ⟨?_, ?_, rfl⟩
  · simp only [uuidToString, String.length_append, toHexPad_length]
    rfl
  · refine ⟨toHexPad (n / 2 ^ 96) 8, toHexPad (n / 2 ^ 80 % 2 ^ 16) 4,
      toHexPad (n / 2 ^ 64 % 2 ^ 16) 4, toHexPad (n / 2 ^ 48 % 2 ^ 16) 4,
      toHexPad (n % 2 ^ 48) 12, rfl, toHexPad_length _ _, toHexPad_length _ _,
      toHexPad_length _ _, toHexPad_length _ _, toHexPad_length _ _, ?_⟩
    intro c hc
    rcases hc with hm | hm | hm | hm | hm
    · exact toHexChars_isHex _ 8 c hm
    · exact toHexChars_isHex _ 4 c hm
    · exact toHexChars_isHex _ 4 c hm
    · exact toHexChars_isHex _ 4 c hm
    · exact toHexChars_isHex _ 12 c hm

/-- C9 witness: the theorem applied to the concrete random value 0. -/
theorem room_id_canonical_format_witness : (uuidToString 0).length = 36 :=
  (room_id_canonical_format [] "http" "localhost:8088" 0 (by norm_num)).1

theorem not_mem_roomList_of_fresh {reg : Registry} {ch : Chan}
    (hfresh : ∀ p ∈ reg, ch ∉ p.2) : ∀ r0, ch ∉ roomList reg r0 := by
  intro r0 hc
  obtain ⟨p, hp, -, hp2⟩ := mem_roomList_exists hc
  exact hfresh p hp hp2

theorem step_preserves_inv {regA regB : Registry} (hstep : Step regA regB)
    (ih : RegistryInv regA) : RegistryInv regB := by
  cases hstep with
  | join r ch hfresh =>
      have hfresh' := not_mem_roomList_of_fresh hfresh
      constructor
      · intro r0
        by_cases h0 : r0 = r
        · subst h0
          rw [roomList_join_self, List.nodup_append]
          refine ⟨ih.1 r0, List.nodup_singleton ch, ?_⟩
          intro a ha hb
          rw [List.mem_singleton] at hb
          subst hb
          exact hfresh' r0 ha
        · rw [roomList_join_ne ch h0]
          exact ih.1 r0
      · intro c r1 r2 h1 h2
        by_cases e1 : r1 = r <;> by_cases e2 : r2 = r
        · rw [e1, e2]
        · subst e1
          rw [roomList_join_self] at h1
          rw [roomList_join_ne ch e2] at h2
          rcases List.mem_append.mp h1 with hc | hc
          · exact ih.2 c r1 r2 hc h2
          · rw [List.mem_singleton] at hc
            subst hc
            exact absurd h2 (hfresh' r2)
        · subst e2
          rw [roomList_join_self] at h2
          rw [roomList_join_ne ch e1] at h1
          rcases List.mem_append.mp h2 with hc | hc
          · exact ih.2 c r1 r2 h1 hc
          · rw [List.mem_singleton] at hc
            subst hc
            exact absurd h1 (hfresh' r1)
        · rw [roomList_join_ne ch e1] at h1
          rw [roomList_join_ne ch e2] at h2
          exact ih.2 c r1 r2 h1 h2
  | leave rB r ch hok =>
      obtain ⟨l2, hr, hrf, hup⟩ := leave_ok_elim hok
      subst hup
      have hsub : l2.Sublist (roomList regA r) := removeFirst_sublist hrf
      have hself : roomList (updateRoom regA r fun _ => l2) r = l2 :=
        roomList_updateRoom_self _ hr
      constructor
      · intro r0
        by_cases h0 : r0 = r
        · subst h0
          rw [hself]
          exact List.Nodup.sublist hsub (ih.1 r0)
        · rw [roomList_updateRoom_ne _ h0]
          exact ih.1 r0
      · intro c r1 r2 h1 h2
        have hmem : ∀ r0, c ∈ roomList (updateRoom regA r fun _ => l2) r0 →
            c ∈ roomList regA r0 := by
          intro r0 hc
          by_cases h0 : r0 = r
          · subst h0
            rw [hself] at hc
            exact hsub.subset hc
          · rw [roomList_updateRoom_ne _ h0] at hc
            exact hc
        exact ih.2 c r1 r2 (hmem r1 h1) (hmem r2 h2)

/-- C6: under the call discipline of `websocket_endpoint` — each session
joins exactly once with its own fresh connection object (so the joined
channel is in no room's collection) and leaves at most once (a leave that
succeeds) — every reachable registry state has duplicate-free room
collections, and each channel sits in at most one room's collection. -/
theorem reachable_registry_invariant (reg : Registry) (h : Reachable reg) :
    RegistryInv reg := by
  induction h with
  | init =>
      constructor
      · intro r
        exact List.nodup_nil
      · intro ch r1 r2 h1 h2
        exact absurd h1 (List.not_mem_nil ch)
  | step hprev hstep ih =>
      exact step_preserves_inv hstep ih

/-- C6 witness: the state after one disciplined join (fresh channel 1 into
room `"abc"`) is reachable and satisfies the invariant. -/
theorem reachable_registry_invariant_witness :
    Reachable (join [] "abc" 1) ∧ RegistryInv (join [] "abc" 1) := by
  have hr : Reachable (join [] "abc" 1) :=
    Reachable.step Reachable.init
      (Step.join [] "abc" 1 (fun p hp => absurd hp (List.not_mem_nil p)))
  exact ⟨hr, reachable_registry_invariant _ hr⟩

end ShareScreen
